import Mathlib

/-
  Verification of the speaker-diarization orchestration layer of
  `frontend/src-tauri/python/diarization_engine.py`.

  The shallow embedding below translates the orchestration code into Lean:
  torch tensors become channels-by-samples lists of rationals, Python floats
  become rationals, Python `int()` becomes truncation toward zero, Python
  slice semantics (clamping, never raising) are reproduced exactly, and the
  external capabilities (torchaudio.load, the resampler, the diarization
  pipeline, the embedding model) become function fields of an `Env` record
  that may return `Except.error`, mirroring Python exceptions.
-/

set_option autoImplicit false

namespace Diarization

/-- Audio waveform: a channels-by-samples array of rational amplitudes,
mirroring the 2-D torch tensor `waveform` in the source. -/
abbrev Waveform := List (List ℚ)

/-- Tensor shape along dimension 0: the number of channels. -/
def shape0 (w : Waveform) : ℕ := w.length

/-- Tensor shape along dimension 1: the number of samples per channel
(torch tensors are rectangular, so the first channel's length is the
sample count). -/
def shape1 (w : Waveform) : ℕ :=
  match w with
  | [] => 0
  | c :: _ => c.length

/-- Truncation toward zero: the behaviour of Python `int()` on a float. -/
def trunc (x : ℚ) : ℤ := if 0 ≤ x then ⌊x⌋ else ⌈x⌉

/-- Python slice-endpoint normalisation for a sequence of length `n`:
negative indices count from the end, and everything is clamped into
`[0, n]`; Python slicing never raises. -/
def pyIndex (n : ℕ) (i : ℤ) : ℕ :=
  if i < 0 then ((n : ℤ) + i).toNat else min i.toNat n

/-- Python slice `l[a:b]` with integer endpoints. -/
def pySlice {α : Type} (a b : ℤ) (l : List α) : List α :=
  (l.drop (pyIndex l.length a)).take (pyIndex l.length b - pyIndex l.length a)

/-- Tensor slice `waveform[:, a:b]`: slice every channel along dim 1. -/
def sliceSamples (w : Waveform) (a b : ℤ) : Waveform :=
  w.map (pySlice a b)

/-- Channel folding `torch.mean(waveform, dim=0, keepdim=True)`: a single
channel whose samples are the arithmetic mean across channels. -/
def meanAcross (w : Waveform) : Waveform :=
  [(List.range (shape1 w)).map (fun i => ((w.map (fun c => c.getD i 0)).sum / (shape0 w : ℚ)))]

/-- Right zero-padding along dim 1, `torch.nn.functional.pad(w, (0, p))`. -/
def padRight (w : Waveform) (p : ℕ) : Waveform :=
  w.map (fun c => c ++ List.replicate p 0)

/-- Speaker turn yielded by `diarization.itertracks(yield_label=True)`:
start and end time in seconds plus the model's opaque speaker token. -/
structure Turn where
  start : ℚ
  stop : ℚ
  speaker : String
  deriving DecidableEq

/-- External capabilities held by a `DiarizationEngine` instance together
with the ambient library calls; each can fail, mirroring Python
exceptions, with the carried string standing for `str(e)`. -/
structure Env where
  load : String → Except String (Waveform × ℕ)
  resample : ℕ → ℕ → Waveform → Except String Waveform
  pipeline : Waveform → ℕ → Option ℕ → Option ℕ → Except String (List Turn)
  embedModel : Waveform → Except String (List ℚ)

/-- Output segment dictionary of the full-file path (`process_audio`). -/
structure SegmentOut where
  speaker_label : String
  start_time : ℚ
  end_time : ℚ
  duration : ℚ
  confidence : ℚ
  embedding : List ℚ
  deriving DecidableEq

/-- Result dictionary of `process_audio`: the success dictionary carries
segments, num_speakers, total_duration and sample_rate; the failure
dictionary carries only the error message (plus success=false and an
empty segments list). -/
inductive DiarizationResult where
  | ok (segments : List SegmentOut) (num_speakers : ℕ)
      (total_duration : ℚ) (sample_rate : ℕ)
  | err (error : String)
  deriving DecidableEq

/-- Value of the "success" key of the result dictionary. -/
def DiarizationResult.success : DiarizationResult → Bool
  | .ok _ _ _ _ => true
  | .err _ => false

/-- Value of the "segments" key of the result dictionary (the failure
dictionary carries an explicit empty list). -/
def DiarizationResult.segments : DiarizationResult → List SegmentOut
  | .ok s _ _ _ => s
  | .err _ => []

/-- Value of the "error" key of the result dictionary (absent on success). -/
def DiarizationResult.errorMsg : DiarizationResult → Option String
  | .ok _ _ _ _ => none
  | .err e => some e

/-- Value of the "num_speakers" key (absent, read as 0, on failure). -/
def DiarizationResult.numSpeakers : DiarizationResult → ℕ
  | .ok _ n _ _ => n
  | .err _ => 0

/-- Value of the "total_duration" key (absent, read as 0, on failure). -/
def DiarizationResult.totalDuration : DiarizationResult → ℚ
  | .ok _ _ d _ => d
  | .err _ => 0

/-- Value of the "sample_rate" key (absent, read as 0, on failure). -/
def DiarizationResult.sampleRate : DiarizationResult → ℕ
  | .ok _ _ _ r => r
  | .err _ => 0

/-- Output segment dictionary of the chunk path (`process_audio_chunk`):
no duration field, and the raw speaker token as label. -/
structure ChunkSegmentOut where
  speaker_label : String
  start_time : ℚ
  end_time : ℚ
  confidence : ℚ
  embedding : List ℚ
  deriving DecidableEq

/-- Result dictionary of `process_audio_chunk`. -/
inductive ChunkResult where
  | ok (chunk_index : ℕ) (segments : List ChunkSegmentOut)
  | err (error : String)
  deriving DecidableEq

/-- Value of the "success" key of the chunk result. -/
def ChunkResult.success : ChunkResult → Bool
  | .ok _ _ => true
  | .err _ => false

/-- Value of the "segments" key of the chunk result. -/
def ChunkResult.segments : ChunkResult → List ChunkSegmentOut
  | .ok _ s => s
  | .err _ => []

/-- Value of the "chunk_index" key of the chunk result (absent on failure). -/
def ChunkResult.chunkIndex : ChunkResult → Option ℕ
  | .ok i _ => some i
  | .err _ => none

/-- Minimum sample count enforced before embedding extraction:
`min_samples = int(0.5 * sample_rate)` in `_extract_embedding`. -/
def minSamples (sample_rate : ℕ) : ℕ :=
  (trunc (0.5 * (sample_rate : ℚ))).toNat

/-- Waveform actually handed to the embedding model by
`_extract_embedding`: right-padded with zeros when shorter than
`min_samples`, untouched otherwise. -/
def paddedWaveform (waveform : Waveform) (sample_rate : ℕ) : Waveform :=
  if shape1 waveform < minSamples sample_rate then
    padRight waveform (minSamples sample_rate - shape1 waveform)
  else waveform

/-- Embedding of `DiarizationEngine._extract_embedding`: pad short input,
invoke the embedding model, and convert any exception into the `None`
sentinel (`Option.none`); the flat vector is returned on success. -/
def extract_embedding (env : Env) (waveform : Waveform) (sample_rate : ℕ) :
    Option (List ℚ) :=
  (env.embedModel (paddedWaveform waveform sample_rate)).toOption

/-- Display label `f"Speaker {speaker_counter}"`. -/
def speakerLabel (n : ℕ) : String := "Speaker " ++ toString n

/-- Loop state of `process_audio`'s turn loop: the accumulated segments
list, the `speaker_labels` dict (an association list in encounter
order) and the `speaker_counter`. -/
structure LoopState where
  segments : List SegmentOut
  speaker_labels : List (String × String)
  speaker_counter : ℕ
  deriving DecidableEq

/-- Segment dictionary appended for one surviving turn: the display label
is looked up in the `speaker_labels` dict, the buffer is sliced to
`[int(start*sample_rate), int(end*sample_rate))` with Python slice
semantics, the embedding is extracted (with `None` degraded to an empty
list), and confidence is the constant 1.0. -/
def emittedSegment (env : Env) (waveform : Waveform) (sample_rate : ℕ)
    (labels : List (String × String)) (turn : Turn) : SegmentOut :=
  { speaker_label := (labels.lookup turn.speaker).getD "",
    start_time := turn.start,
    end_time := turn.stop,
    duration := turn.stop - turn.start,
    confidence := 1,
    embedding := (extract_embedding env
      (sliceSamples waveform (trunc (turn.start * (sample_rate : ℚ)))
        (trunc (turn.stop * (sample_rate : ℚ)))) sample_rate).getD [] }

/-- Body of the turn loop in `process_audio`: assign a display label on
first appearance of the speaker token, then drop the turn when its
duration is strictly below `min_segment_duration`, otherwise slice the
buffer with Python `int()` truncation, extract the embedding and append
the segment dictionary. -/
def turnStep (env : Env) (waveform : Waveform) (sample_rate : ℕ)
    (min_segment_duration : ℚ) (st : LoopState) (turn : Turn) : LoopState :=
  let labels :=
    if turn.speaker ∈ st.speaker_labels.map Prod.fst then st.speaker_labels
    else st.speaker_labels ++ [(turn.speaker, speakerLabel st.speaker_counter)]
  let counter :=
    if turn.speaker ∈ st.speaker_labels.map Prod.fst then st.speaker_counter
    else st.speaker_counter + 1
  if turn.stop - turn.start < min_segment_duration then
    { segments := st.segments, speaker_labels := labels, speaker_counter := counter }
  else
    { segments := st.segments ++ [emittedSegment env waveform sample_rate labels turn],
      speaker_labels := labels,
      speaker_counter := counter }

/-- Turn loop of `process_audio`, started from empty segments, an empty
label dict and counter 1. -/
def processTurns (env : Env) (waveform : Waveform) (sample_rate : ℕ)
    (min_segment_duration : ℚ) (turns : List Turn) : LoopState :=
  turns.foldl (turnStep env waveform sample_rate min_segment_duration)
    { segments := [], speaker_labels := [], speaker_counter := 1 }

/-- Resampling step of `process_audio`: invoked only when the native rate
differs from the requested one (`if sr != sample_rate`). -/
def resampleStep (env : Env) (sr sample_rate : ℕ) (waveform : Waveform) :
    Except String Waveform :=
  if sr ≠ sample_rate then env.resample sr sample_rate waveform
  else .ok waveform

/-- Loading and normalisation prefix of `process_audio`: load the file,
resample when the native rate differs, fold to mono when more than one
channel is present. Each step's exception propagates (to be caught at
the `process_audio` boundary). -/
def loadAndNormalize (env : Env) (audio_path : String) (sample_rate : ℕ) :
    Except String Waveform :=
  match env.load audio_path with
  | .error e => .error e
  | .ok (waveform, sr) =>
    match resampleStep env sr sample_rate waveform with
    | .error e => .error e
    | .ok waveform2 =>
      .ok (if shape0 waveform2 > 1 then meanAcross waveform2 else waveform2)

/-- Embedding of `DiarizationEngine.process_audio`: normalize, run the
diarization pipeline, loop over the yielded turns, and assemble the
success dictionary; any exception raised along the way is caught by the
surrounding `try`, producing the failure dictionary instead. -/
def process_audio (env : Env) (audio_path : String) (sample_rate : ℕ)
    (min_speakers max_speakers : Option ℕ) (min_segment_duration : ℚ) :
    DiarizationResult :=
  match loadAndNormalize env audio_path sample_rate with
  | .error e => .err e
  | .ok waveform =>
    match env.pipeline waveform sample_rate min_speakers max_speakers with
    | .error e => .err e
    | .ok turns =>
      let st := processTurns env waveform sample_rate min_segment_duration turns
      .ok st.segments st.speaker_labels.length
        ((shape1 waveform : ℚ) / (sample_rate : ℚ)) sample_rate

/-- Embedding of `DiarizationEngine.process_audio_chunk`: wrap the raw
samples into a one-channel tensor, invoke the pipeline with no speaker
hints, and emit one segment per turn with the raw speaker token as
label and no duration filter; exceptions become the failure dictionary. -/
def process_audio_chunk (env : Env) (audio_data : List ℚ) (sample_rate : ℕ)
    (chunk_index : ℕ) : ChunkResult :=
  let waveform : Waveform := [audio_data]
  match env.pipeline waveform sample_rate none none with
  | .error e => .err e
  | .ok turns =>
    .ok chunk_index (turns.map (fun turn =>
      { speaker_label := turn.speaker,
        start_time := turn.start,
        end_time := turn.stop,
        confidence := 1,
        embedding := (extract_embedding env
          (sliceSamples waveform (trunc (turn.start * (sample_rate : ℚ)))
            (trunc (turn.stop * (sample_rate : ℚ)))) sample_rate).getD [] }))

/-- Spec-side reading of the slice bound, for comparison with the source:
the specification text says `round(start*sample_rate)`, i.e. rounding to
the nearest integer, where the source uses `int()` truncation. -/
def roundNearest (x : ℚ) : ℤ := ⌊x + 0.5⌋

/-- Spec-side slice of a turn's sample range, following the
specification's words: the range `[round(start*rate), round(end*rate))`. -/
def sliceSamplesSpecRound (w : Waveform) (s e : ℚ) (rate : ℕ) : Waveform :=
  sliceSamples w (roundNearest (s * rate)) (roundNearest (e * rate))

/-- First-appearance order of strings in a list: the keys the
`speaker_labels` dict accumulates, in insertion order. -/
def firstOccurrences (l : List String) : List String :=
  l.foldl (fun acc s => if s ∈ acc then acc else acc ++ [s]) []

/-! Helper lemmas about the turn loop. -/

theorem turnStep_speaker_labels (env : Env) (w : Waveform) (rate : ℕ) (md : ℚ)
    (st : LoopState) (t : Turn) :
    (turnStep env w rate md st t).speaker_labels =
      if t.speaker ∈ st.speaker_labels.map Prod.fst then st.speaker_labels
      else st.speaker_labels ++ [(t.speaker, speakerLabel st.speaker_counter)] := by
  simp only [turnStep]
  split <;> rfl

theorem turnStep_speaker_counter (env : Env) (w : Waveform) (rate : ℕ) (md : ℚ)
    (st : LoopState) (t : Turn) :
    (turnStep env w rate md st t).speaker_counter =
      if t.speaker ∈ st.speaker_labels.map Prod.fst then st.speaker_counter
      else st.speaker_counter + 1 := by
  simp only [turnStep]
  split <;> rfl

theorem turnStep_segments (env : Env) (w : Waveform) (rate : ℕ) (md : ℚ)
    (st : LoopState) (t : Turn) :
    (turnStep env w rate md st t).segments =
      if t.stop - t.start < md then st.segments
      else st.segments ++
        [emittedSegment env w rate (turnStep env w rate md st t).speaker_labels t] := by
  rw [turnStep_speaker_labels]
  simp only [turnStep]
  split <;> rfl

theorem mem_segments_foldl (env : Env) (w : Waveform) (rate : ℕ) (md : ℚ)
    (ts : List Turn) (st : LoopState) (seg : SegmentOut)
    (h : seg ∈ st.segments) :
    seg ∈ (ts.foldl (turnStep env w rate md) st).segments := by
  induction ts generalizing st with
  | nil => simpa using h
  | cons t ts ih =>
    rw [List.foldl_cons]
    apply ih
    rw [turnStep_segments]
    split
    · exact h
    · exact List.mem_append_left _ h

theorem length_segments_foldl (env : Env) (w : Waveform) (rate : ℕ) (md : ℚ)
    (ts : List Turn) (st : LoopState) :
    (ts.foldl (turnStep env w rate md) st).segments.length
      = st.segments.length + ts.countP (fun t => decide (md ≤ t.stop - t.start)) := by
  induction ts generalizing st with
  | nil => simp
  | cons t ts ih =>
    rw [List.foldl_cons, ih, List.countP_cons, turnStep_segments]
    split
    · rename_i hlt
      simp [decide_eq_false (by exact not_le.mpr hlt)]
    · rename_i hge
      simp [decide_eq_true (by exact not_lt.mp hge)]
      omega

theorem duration_ge_foldl (env : Env) (w : Waveform) (rate : ℕ) (md : ℚ)
    (ts : List Turn) (st : LoopState)
    (h0 : ∀ seg ∈ st.segments, md ≤ seg.duration) :
    ∀ seg ∈ (ts.foldl (turnStep env w rate md) st).segments, md ≤ seg.duration := by
  induction ts generalizing st with
  | nil => simpa using h0
  | cons t ts ih =>
    rw [List.foldl_cons]
    apply ih
    rw [turnStep_segments]
    split
    · exact h0
    · rename_i hge
      intro seg hseg
      rcases List.mem_append.mp hseg with hs | hs
      · exact h0 _ hs
      · rw [List.mem_singleton.mp hs]
        exact not_lt.mp hge

theorem keys_foldl (env : Env) (w : Waveform) (rate : ℕ) (md : ℚ)
    (ts : List Turn) (st : LoopState) :
    (ts.foldl (turnStep env w rate md) st).speaker_labels.map Prod.fst
      = (ts.map Turn.speaker).foldl
          (fun acc s => if s ∈ acc then acc else acc ++ [s])
          (st.speaker_labels.map Prod.fst) := by
  induction ts generalizing st with
  | nil => rfl
  | cons t ts ih =>
    rw [List.foldl_cons, ih, List.map_cons, List.foldl_cons]
    congr 1
    rw [turnStep_speaker_labels]
    split
    · rfl
    · simp

theorem keys_mono_foldl (env : Env) (w : Waveform) (rate : ℕ) (md : ℚ)
    (ts : List Turn) (st : LoopState) (s : String)
    (h : s ∈ st.speaker_labels.map Prod.fst) :
    s ∈ (ts.foldl (turnStep env w rate md) st).speaker_labels.map Prod.fst := by
  induction ts generalizing st with
  | nil => simpa using h
  | cons t ts ih =>
    rw [List.foldl_cons]
    apply ih
    rw [turnStep_speaker_labels]
    split
    · exact h
    · simp [h]

theorem speaker_mem_keys_foldl (env : Env) (w : Waveform) (rate : ℕ) (md : ℚ)
    (ts : List Turn) (st : LoopState) (t : Turn) (ht : t ∈ ts) :
    t.speaker ∈ (ts.foldl (turnStep env w rate md) st).speaker_labels.map Prod.fst := by
  induction ts generalizing st with
  | nil => cases ht
  | cons u ts ih =>
    rw [List.foldl_cons]
    rcases List.mem_cons.mp ht with heq | hmem
    · apply keys_mono_foldl
      rw [heq, turnStep_speaker_labels]
      split
      · assumption
      · simp
    · exact ih _ hmem

/-- Invariant of the label map: the counter is one past the map size and
the values are "Speaker 1", "Speaker 2", ... in positional order. -/
def labelsOk (st : LoopState) : Prop :=
  st.speaker_counter = st.speaker_labels.length + 1 ∧
  st.speaker_labels.map Prod.snd =
    (List.range st.speaker_labels.length).map (fun i => speakerLabel (i + 1))

theorem labelsOk_turnStep (env : Env) (w : Waveform) (rate : ℕ) (md : ℚ)
    (st : LoopState) (t : Turn) (h : labelsOk st) :
    labelsOk (turnStep env w rate md st t) := by
  obtain ⟨hc, hv⟩ := h
  constructor
  · rw [turnStep_speaker_counter, turnStep_speaker_labels]
    split
    · exact hc
    · simp
      omega
  · rw [turnStep_speaker_labels]
    split
    · exact hv
    · rw [List.map_append, List.length_append, hv, hc]
      simp [List.range_succ]

theorem labelsOk_foldl (env : Env) (w : Waveform) (rate : ℕ) (md : ℚ)
    (ts : List Turn) (st : LoopState) (h : labelsOk st) :
    labelsOk (ts.foldl (turnStep env w rate md) st) := by
  induction ts generalizing st with
  | nil => simpa using h
  | cons t ts ih =>
    rw [List.foldl_cons]
    exact ih _ (labelsOk_turnStep env w rate md st t h)

theorem surviving_turn_mem_segments (env : Env) (w : Waveform) (rate : ℕ) (md : ℚ)
    (ts : List Turn) (st : LoopState) (t : Turn)
    (ht : t ∈ ts) (hd : ¬ (t.stop - t.start < md)) :
    ∃ seg ∈ (ts.foldl (turnStep env w rate md) st).segments,
      seg.start_time = t.start ∧ seg.end_time = t.stop ∧
      seg.duration = t.stop - t.start ∧ seg.confidence = 1 ∧
      seg.embedding = (extract_embedding env (sliceSamples w
        (trunc (t.start * (rate : ℚ))) (trunc (t.stop * (rate : ℚ)))) rate).getD [] := by
  induction ts generalizing st with
  | nil => cases ht
  | cons u ts ih =>
    rw [List.foldl_cons]
    rcases List.mem_cons.mp ht with heq | hmem
    · subst heq
      refine ⟨emittedSegment env w rate (turnStep env w rate md st t).speaker_labels t,
        ?_, rfl, rfl, rfl, rfl, rfl⟩
      apply mem_segments_foldl
      rw [turnStep_segments, if_neg hd]
      exact List.mem_append_right _ (List.mem_singleton.mpr rfl)
    · exact ih _ hmem

/-! Helper lemmas about Python slicing and truncation. -/

theorem trunc_of_nonneg {x : ℚ} (h : 0 ≤ x) : trunc x = ⌊x⌋ := if_pos h

theorem pySlice_eq_take_drop {α : Type} (a b : ℤ) (ha : 0 ≤ a) (hb : 0 ≤ b)
    (l : List α) :
    pySlice a b l = (l.take b.toNat).drop a.toNat := by
  unfold pySlice pyIndex
  rw [if_neg (not_lt.mpr ha), if_neg (not_lt.mpr hb), List.drop_take]
  by_cases hx : a.toNat ≤ l.length
  · rw [min_eq_left hx]
    by_cases hy : b.toNat ≤ l.length
    · rw [min_eq_left hy]
    · rw [min_eq_right (le_of_not_le hy)]
      rw [List.take_of_length_le (by simp only [List.length_drop]; omega),
        List.take_of_length_le (by simp only [List.length_drop]; omega)]
  · rw [min_eq_right (le_of_not_le hx)]
    rw [List.drop_eq_nil_of_le (le_refl _), List.drop_eq_nil_of_le (by omega)]
    simp

theorem sliceSamples_eq_take_drop (w : Waveform) (s e : ℚ) (rate : ℕ)
    (hs : 0 ≤ s) (he : 0 ≤ e) :
    sliceSamples w (trunc (s * (rate : ℚ))) (trunc (e * (rate : ℚ)))
      = w.map (fun c => (c.take (⌊e * (rate : ℚ)⌋).toNat).drop (⌊s * (rate : ℚ)⌋).toNat) := by
  have hs2 : (0 : ℚ) ≤ s * (rate : ℚ) := mul_nonneg hs (by positivity)
  have he2 : (0 : ℚ) ≤ e * (rate : ℚ) := mul_nonneg he (by positivity)
  rw [trunc_of_nonneg hs2, trunc_of_nonneg he2]
  unfold sliceSamples
  congr 1
  funext c
  exact pySlice_eq_take_drop _ _ (Int.floor_nonneg.mpr hs2) (Int.floor_nonneg.mpr he2) c

/-! Reduction equations for process_audio. -/

theorem loadAndNormalize_of_load_error {env : Env} {path : String} {rate : ℕ}
    {e : String} (h : env.load path = .error e) :
    loadAndNormalize env path rate = .error e := by
  unfold loadAndNormalize
  rw [h]

theorem loadAndNormalize_of_resample_error {env : Env} {path : String} {rate : ℕ}
    {w : Waveform} {sr : ℕ} {e : String}
    (h : env.load path = .ok (w, sr)) (h2 : resampleStep env sr rate w = .error e) :
    loadAndNormalize env path rate = .error e := by
  simp only [loadAndNormalize, h, h2]

theorem process_audio_of_norm_error {env : Env} {path : String} {rate : ℕ}
    {ms xs : Option ℕ} {md : ℚ} {e : String}
    (h : loadAndNormalize env path rate = .error e) :
    process_audio env path rate ms xs md = .err e := by
  unfold process_audio
  rw [h]

theorem process_audio_of_pipeline_error {env : Env} {path : String} {rate : ℕ}
    {ms xs : Option ℕ} {md : ℚ} {w : Waveform} {e : String}
    (hw : loadAndNormalize env path rate = .ok w)
    (h : env.pipeline w rate ms xs = .error e) :
    process_audio env path rate ms xs md = .err e := by
  simp only [process_audio, hw, h]

theorem process_audio_of_ok {env : Env} {path : String} {rate : ℕ}
    {ms xs : Option ℕ} {md : ℚ} {w : Waveform} {turns : List Turn}
    (hw : loadAndNormalize env path rate = .ok w)
    (ht : env.pipeline w rate ms xs = .ok turns) :
    process_audio env path rate ms xs md =
      .ok (processTurns env w rate md turns).segments
        (processTurns env w rate md turns).speaker_labels.length
        ((shape1 w : ℚ) / (rate : ℚ)) rate := by
  simp only [process_audio, hw, ht]

theorem process_audio_chunk_of_ok {env : Env} {audio : List ℚ} {rate : ℕ}
    {idx : ℕ} {turns : List Turn}
    (h : env.pipeline [audio] rate none none = .ok turns) :
    process_audio_chunk env audio rate idx =
      .ok idx (turns.map (fun turn =>
        { speaker_label := turn.speaker,
          start_time := turn.start,
          end_time := turn.stop,
          confidence := 1,
          embedding := (extract_embedding env
            (sliceSamples [audio] (trunc (turn.start * (rate : ℚ)))
              (trunc (turn.stop * (rate : ℚ)))) rate).getD [] })) := by
  simp only [process_audio_chunk, h]

/-! Concrete test environments used by the witnesses and counterexamples. -/

/-- Environment whose load step raises. -/
def envFailLoad : Env where
  load := fun _ => .error "file not found"
  resample := fun _ _ w => .ok w
  pipeline := fun _ _ _ _ => .ok []
  embedModel := fun w => .ok w.flatten

/-- Environment with a 2 Hz four-sample buffer, one turn covering
[0, 7/4), and an embedding model echoing the samples it receives. -/
def envEcho : Env where
  load := fun _ => .ok ([[1, 2, 3, 4]], 2)
  resample := fun _ _ w => .ok w
  pipeline := fun _ _ _ _ => .ok [{ start := 0, stop := 7/4, speaker := "A" }]
  embedModel := fun w => .ok w.flatten

/-- Environment with a 4 Hz buffer and two turns: one long turn by
speaker A and one 0.3 s micro-turn by speaker C. -/
def envTwoTurns : Env where
  load := fun _ => .ok ([[0, 0, 0, 0, 0, 0, 0, 0]], 4)
  resample := fun _ _ w => .ok w
  pipeline := fun _ _ _ _ => .ok
    [{ start := 0, stop := 3/2, speaker := "A" },
     { start := 3/2, stop := 9/5, speaker := "C" }]
  embedModel := fun w => .ok w.flatten

/-- Environment decoding a degenerate buffer (one channel, zero samples)
whose downstream components do not raise. -/
def envDegenOk : Env where
  load := fun _ => .ok ([[]], 5)
  resample := fun _ _ w => .ok w
  pipeline := fun _ _ _ _ => .ok []
  embedModel := fun w => .ok w.flatten

/-- Environment decoding a degenerate buffer whose pipeline raises on
zero-sample input. -/
def envDegenFail : Env where
  load := fun _ => .ok ([[]], 5)
  resample := fun _ _ w => .ok w
  pipeline := fun w _ _ _ => if shape1 w = 0 then .error "empty audio buffer" else .ok []
  embedModel := fun w => .ok w.flatten

/-- Environment whose embedding model reports the sample count of the
waveform it receives, making the padding observable. -/
def envObsLen : Env where
  load := fun _ => .ok ([[7]], 5)
  resample := fun _ _ w => .ok w
  pipeline := fun _ _ _ _ => .ok []
  embedModel := fun w => .ok [(shape1 w : ℚ)]

/-- Environment whose embedding model always raises. -/
def envEmbedFail : Env where
  load := fun _ => .ok ([[1, 2, 3, 4]], 2)
  resample := fun _ _ w => .ok w
  pipeline := fun _ _ _ _ => .ok [{ start := 0, stop := 2, speaker := "A" }]
  embedModel := fun _ => .error "embedding model failure"

/-- Environment whose pipeline yields one short raw-token turn when
invoked without speaker hints, and raises if hints are passed. -/
def envChunk : Env where
  load := fun _ => .error "unused"
  resample := fun _ _ w => .ok w
  pipeline := fun _ _ ms xs =>
    match ms, xs with
    | none, none => .ok [{ start := 0, stop := 1/4, speaker := "SPEAKER_00" }]
    | _, _ => .error "unexpected speaker hints"
  embedModel := fun w => .ok w.flatten

/-- Environment with a single turn whose duration is exactly the default
minimum segment duration. -/
def envBoundary : Env where
  load := fun _ => .ok ([[1, 2]], 2)
  resample := fun _ _ w => .ok w
  pipeline := fun _ _ _ _ => .ok [{ start := 0, stop := 1, speaker := "A" }]
  embedModel := fun w => .ok w.flatten

/-! Claim theorems. -/

/-- C1: for every input to `process_audio`, if any exception is raised
during loading, resampling, or diarization model invocation, the call
does not propagate it: it returns a result with success=false, the
error message string, and an empty segments list. (Slicing and
embedding extraction cannot raise in this embedding: Python slicing
clamps instead of raising, and the extractor catches internally.) -/
theorem claim_C1_exception_boundary (env : Env) (path : String) (rate : ℕ)
    (ms xs : Option ℕ) (md : ℚ) (e : String) :
    (env.load path = .error e →
      (process_audio env path rate ms xs md).success = false ∧
      (process_audio env path rate ms xs md).errorMsg = some e ∧
      (process_audio env path rate ms xs md).segments = []) ∧
    (∀ w sr, env.load path = .ok (w, sr) → resampleStep env sr rate w = .error e →
      (process_audio env path rate ms xs md).success = false ∧
      (process_audio env path rate ms xs md).errorMsg = some e ∧
      (process_audio env path rate ms xs md).segments = []) ∧
    (∀ w, loadAndNormalize env path rate = .ok w →
      env.pipeline w rate ms xs = .error e →
      (process_audio env path rate ms xs md).success = false ∧
      (process_audio env path rate ms xs md).errorMsg = some e ∧
      (process_audio env path rate ms xs md).segments = []) := by
  refine ⟨fun h => ?_, fun w sr h h2 => ?_, fun w hw h => ?_⟩
  · rw [process_audio_of_norm_error (loadAndNormalize_of_load_error h)]
    exact ⟨rfl, rfl, rfl⟩
  · rw [process_audio_of_norm_error (loadAndNormalize_of_resample_error h h2)]
    exact ⟨rfl, rfl, rfl⟩
  · rw [process_audio_of_pipeline_error hw h]
    exact ⟨rfl, rfl, rfl⟩

/-- Witness for C1 at a concrete environment whose load step raises. -/
theorem claim_C1_witness :
    (process_audio envFailLoad "missing.wav" 16000 none none 1).success = false ∧
    (process_audio envFailLoad "missing.wav" 16000 none none 1).errorMsg
      = some "file not found" ∧
    (process_audio envFailLoad "missing.wav" 16000 none none 1).segments = [] :=
  (claim_C1_exception_boundary envFailLoad "missing.wav" 16000 none none 1
    "file not found").1 rfl

/-- C2: a turn shorter than min_segment_duration contributes no segment
to the output, yet its speaker token still enters the label map (label
assignment precedes the duration filter), so num_speakers counts a
speaker even when all of that speaker's turns are filtered out. -/
theorem claim_C2_short_turn_filter (env : Env) (path : String) (rate : ℕ)
    (ms xs : Option ℕ) (md : ℚ) (w : Waveform) (turns : List Turn)
    (hw : loadAndNormalize env path rate = .ok w)
    (ht : env.pipeline w rate ms xs = .ok turns) :
    (process_audio env path rate ms xs md).segments.length
        = turns.countP (fun t => decide (md ≤ t.stop - t.start)) ∧
    (∀ seg ∈ (process_audio env path rate ms xs md).segments, md ≤ seg.duration) ∧
    (process_audio env path rate ms xs md).numSpeakers
        = (firstOccurrences (turns.map Turn.speaker)).length ∧
    (∀ t ∈ turns, t.speaker ∈
      (processTurns env w rate md turns).speaker_labels.map Prod.fst) := by
  rw [process_audio_of_ok hw ht]
  have hk : (processTurns env w rate md turns).speaker_labels.map Prod.fst
      = firstOccurrences (turns.map Turn.speaker) := by
    unfold processTurns firstOccurrences
    rw [keys_foldl]
    rfl
  refine ⟨?_, ?_, ?_, ?_⟩
  · simp only [DiarizationResult.segments]
    unfold processTurns
    rw [length_segments_foldl]
    simp
  · simp only [DiarizationResult.segments]
    unfold processTurns
    exact duration_ge_foldl env w rate md turns _ (by intro seg hs; cases hs)
  · simp only [DiarizationResult.numSpeakers]
    calc (processTurns env w rate md turns).speaker_labels.length
        = ((processTurns env w rate md turns).speaker_labels.map Prod.fst).length :=
          (List.length_map _ _).symm
      _ = (firstOccurrences (turns.map Turn.speaker)).length := by rw [hk]
  · intro t ht2
    unfold processTurns
    exact speaker_mem_keys_foldl env w rate md turns _ t ht2

/-- Witness for C2: two turns at 4 Hz, speaker A for 1.5 s and speaker C
for 0.3 s with the default 1 s minimum: one segment is emitted but both
speakers are counted. -/
theorem claim_C2_witness :
    (process_audio envTwoTurns "audio.wav" 4 none none 1).segments.length = 1 ∧
    (process_audio envTwoTurns "audio.wav" 4 none none 1).numSpeakers = 2 := by
  have h := claim_C2_short_turn_filter envTwoTurns "audio.wav" 4 none none 1
    [[0, 0, 0, 0, 0, 0, 0, 0]]
    [{ start := 0, stop := 3/2, speaker := "A" },
     { start := 3/2, stop := 9/5, speaker := "C" }] rfl rfl
  constructor
  · rw [h.1]
    norm_num [List.countP_cons, decide_eq_true_eq]
  · rw [h.2.2.1]
    rfl

/-- C3 counterexample: at a 2 Hz buffer [[1,2,3,4]] with one turn over
[0, 7/4), the code slices with `int()` truncation to the sample range
[0, 3) and the emitted embedding echoes [1,2,3]; the round-based bounds
the claim states would give the range [0, 4) and embedding [1,2,3,4]. -/
theorem claim_C3_counterexample :
    (process_audio envEcho "audio.wav" 2 none none 1).segments.map SegmentOut.embedding
      = [[1, 2, 3]] ∧
    (extract_embedding envEcho (sliceSamplesSpecRound [[1, 2, 3, 4]] 0 (7/4) 2) 2).getD []
      = [1, 2, 3, 4] ∧
    ([[1, 2, 3]] : List (List ℚ)) ≠ [[1, 2, 3, 4]] := by
  refine ⟨?_, ?_, by simp⟩
  · norm_num [process_audio, loadAndNormalize, envEcho, resampleStep, shape0,
      processTurns, turnStep, emittedSegment, extract_embedding, paddedWaveform,
      minSamples, trunc, sliceSamples, pySlice, pyIndex, shape1, padRight,
      speakerLabel, List.lookup, DiarizationResult.segments, Except.toOption]
    rfl
  · norm_num [extract_embedding, paddedWaveform, minSamples, trunc, envEcho,
      sliceSamplesSpecRound, sliceSamples, pySlice, pyIndex, shape1, roundNearest,
      Except.toOption]

/-- C3 amended: for every surviving turn with nonnegative times, the
buffer slice passed to embedding extraction is the sample range
[int(start*sample_rate), int(end*sample_rate)) — truncation toward zero
(equivalently floor for nonnegative times), not rounding to nearest. -/
theorem claim_C3_slice_truncation (env : Env) (path : String) (rate : ℕ)
    (ms xs : Option ℕ) (md : ℚ) (w : Waveform) (turns : List Turn) (t : Turn)
    (hw : loadAndNormalize env path rate = .ok w)
    (ht : env.pipeline w rate ms xs = .ok turns)
    (htm : t ∈ turns) (hd : ¬ (t.stop - t.start < md))
    (hs : 0 ≤ t.start) (he : 0 ≤ t.stop) :
    ∃ seg ∈ (process_audio env path rate ms xs md).segments,
      seg.start_time = t.start ∧ seg.end_time = t.stop ∧
      seg.embedding = (extract_embedding env
        (w.map (fun c => (c.take (⌊t.stop * (rate : ℚ)⌋).toNat).drop
          (⌊t.start * (rate : ℚ)⌋).toNat)) rate).getD [] := by
  rw [process_audio_of_ok hw ht]
  have h := surviving_turn_mem_segments env w rate md turns ⟨[], [], 1⟩ t htm hd
  rw [sliceSamples_eq_take_drop w t.start t.stop rate hs he] at h
  obtain ⟨seg, hmem, h1, h2, _, _, h5⟩ := h
  exact ⟨seg, by simpa [DiarizationResult.segments, processTurns] using hmem, h1, h2, h5⟩

/-- Witness for C3's amended statement at the echo environment. -/
theorem claim_C3_witness :
    ∃ seg ∈ (process_audio envEcho "audio.wav" 2 none none 1).segments,
      seg.start_time = 0 ∧ seg.end_time = 7/4 ∧
      seg.embedding = (extract_embedding envEcho
        ([[1, 2, 3, 4]].map (fun c => (c.take (⌊(7/4 : ℚ) * ((2 : ℕ) : ℚ)⌋).toNat).drop
          (⌊(0 : ℚ) * ((2 : ℕ) : ℚ)⌋).toNat)) 2).getD [] :=
  claim_C3_slice_truncation envEcho "audio.wav" 2 none none 1 [[1, 2, 3, 4]]
    [{ start := 0, stop := 7/4, speaker := "A" }]
    { start := 0, stop := 7/4, speaker := "A" }
    rfl rfl (by simp) (by norm_num) (by norm_num) (by norm_num)

/-- C4 corrected: the orchestration layer has no degenerate-buffer check
of its own; a degenerate (zero-channel or zero-sample) decoded buffer
makes the call fail exactly when some downstream component raises, in
which case the exception is caught at the boundary and surfaced as
success=false with a message and no partial output; when nothing
raises, the call succeeds. -/
theorem claim_C4_degenerate_buffer (env : Env) (path : String) (rate : ℕ)
    (ms xs : Option ℕ) (md : ℚ) (w : Waveform)
    (hw : loadAndNormalize env path rate = .ok w)
    (_hdeg : shape0 w = 0 ∨ shape1 w = 0) :
    (∀ e, env.pipeline w rate ms xs = .error e →
      (process_audio env path rate ms xs md).success = false ∧
      (process_audio env path rate ms xs md).errorMsg = some e ∧
      (process_audio env path rate ms xs md).segments = []) ∧
    (∀ turns, env.pipeline w rate ms xs = .ok turns →
      (process_audio env path rate ms xs md).success = true) := by
  refine ⟨fun e h => ?_, fun turns h => ?_⟩
  · rw [process_audio_of_pipeline_error hw h]
    exact ⟨rfl, rfl, rfl⟩
  · rw [process_audio_of_ok hw h]
    rfl

/-- C4 counterexample: a degenerate decoded buffer (one channel, zero
samples) where no external component raises: the call returns
success=true, not the failure the claim asserts. -/
theorem claim_C4_counterexample :
    envDegenOk.load "audio.wav" = .ok ([[]], 5) ∧ shape1 [[]] = 0 ∧
    (process_audio envDegenOk "audio.wav" 5 none none 1).success = true :=
  ⟨rfl, rfl, rfl⟩

/-- Witness for C4's amended statement: the same degenerate buffer with a
pipeline that raises on it is surfaced as the failure dictionary. -/
theorem claim_C4_witness :
    (process_audio envDegenFail "audio.wav" 5 none none 1).success = false ∧
    (process_audio envDegenFail "audio.wav" 5 none none 1).errorMsg
      = some "empty audio buffer" ∧
    (process_audio envDegenFail "audio.wav" 5 none none 1).segments = [] :=
  (claim_C4_degenerate_buffer envDegenFail "audio.wav" 5 none none 1 [[]]
    rfl (Or.inr rfl)).1 "empty audio buffer" rfl

/-- C5: display labels are assigned in strictly increasing numeric order
of first appearance — the keys of the label map are the distinct
speaker tokens in first-appearance order, and the value at position i
is "Speaker (i+1)", regardless of the token values; numbering restarts
at 1 for every call because the map starts empty with counter 1. -/
theorem claim_C5_label_order (env : Env) (w : Waveform) (rate : ℕ) (md : ℚ)
    (turns : List Turn) :
    (processTurns env w rate md turns).speaker_labels.map Prod.fst
      = firstOccurrences (turns.map Turn.speaker) ∧
    (processTurns env w rate md turns).speaker_labels.map Prod.snd
      = (List.range (processTurns env w rate md turns).speaker_labels.length).map
          (fun i => speakerLabel (i + 1)) := by
  constructor
  · unfold processTurns firstOccurrences
    rw [keys_foldl]
    rfl
  · exact (labelsOk_foldl env w rate md turns ⟨[], [], 1⟩ ⟨rfl, rfl⟩).2

/-- C6 counterexample: at the odd rate 3, a one-sample waveform has fewer
than 0.5*3 = 1.5 samples, yet the code (whose floor is
int(0.5*3) = 1) does not pad at all, and the model receives 1 sample,
not the "exactly 0.5*sample_rate" the claim states. -/
theorem claim_C6_counterexample :
    shape1 [[7]] = 1 ∧ ((1 : ℚ) < 0.5 * 3) ∧
    extract_embedding envObsLen [[7]] 3 = some [(1 : ℚ)] ∧
    ((1 : ℚ) ≠ 0.5 * 3) := by
  refine ⟨rfl, by norm_num, ?_, by norm_num⟩
  norm_num [extract_embedding, paddedWaveform, minSamples, trunc, shape1,
    padRight, envObsLen, Except.toOption]

/-- C6 amended: a segment waveform with fewer than int(0.5*sample_rate)
samples is right-padded with zero samples to exactly
int(0.5*sample_rate) samples before the embedding model is invoked, and
the embedding call is never skipped for short segments. -/
theorem claim_C6_padding (env : Env) (w : Waveform) (rate : ℕ)
    (h0 : 0 < shape0 w) (h : shape1 w < minSamples rate) :
    extract_embedding env w rate =
      (env.embedModel (w.map (fun c =>
        c ++ List.replicate (minSamples rate - shape1 w) 0))).toOption ∧
    shape1 (padRight w (minSamples rate - shape1 w)) = minSamples rate := by
  constructor
  · unfold extract_embedding paddedWaveform
    rw [if_pos h]
    rfl
  · cases w with
    | nil => simp [shape0] at h0
    | cons c cs =>
      have hc : shape1 (c :: cs) = c.length := rfl
      rw [hc] at h
      show (c ++ List.replicate (minSamples rate - c.length) 0).length = minSamples rate
      rw [List.length_append, List.length_replicate]
      omega

/-- Witness for C6's amended statement: a one-sample waveform at rate 5
is padded to int(0.5*5) = 2 samples, and the observing model reports 2. -/
theorem claim_C6_witness :
    (extract_embedding envObsLen [[7]] 5 =
      (envObsLen.embedModel ([[7]].map (fun c =>
        c ++ List.replicate (minSamples 5 - shape1 [[7]]) 0))).toOption ∧
    shape1 (padRight [[7]] (minSamples 5 - shape1 [[7]])) = minSamples 5) ∧
    extract_embedding envObsLen [[7]] 5 = some [(2 : ℚ)] := by
  refine ⟨claim_C6_padding envObsLen [[7]] 5 (by norm_num [shape0]) ?_, ?_⟩
  · norm_num [shape1, minSamples, trunc]
  · norm_num [extract_embedding, paddedWaveform, minSamples, trunc, shape1,
      padRight, envObsLen, Except.toOption]
    norm_cast

/-- C7: an embedding-model exception never escapes the extractor (it
yields the None sentinel), and a surviving turn whose extraction fails
is still emitted as a segment with an empty embedding list while the
overall call keeps success=true. -/
theorem claim_C7_embedding_failure (env : Env) (path : String) (rate : ℕ)
    (ms xs : Option ℕ) (md : ℚ) (w : Waveform) (turns : List Turn) (t : Turn)
    (hw : loadAndNormalize env path rate = .ok w)
    (ht : env.pipeline w rate ms xs = .ok turns)
    (htm : t ∈ turns) (hd : ¬ (t.stop - t.start < md))
    (hfail : extract_embedding env (sliceSamples w (trunc (t.start * (rate : ℚ)))
      (trunc (t.stop * (rate : ℚ)))) rate = none) :
    (∀ (w2 : Waveform) (rate2 : ℕ) (e : String),
      env.embedModel (paddedWaveform w2 rate2) = .error e →
      extract_embedding env w2 rate2 = none) ∧
    (∃ seg ∈ (process_audio env path rate ms xs md).segments,
      seg.start_time = t.start ∧ seg.end_time = t.stop ∧ seg.embedding = []) ∧
    (process_audio env path rate ms xs md).success = true := by
  refine ⟨fun w2 rate2 e h => ?_, ?_, ?_⟩
  · unfold extract_embedding
    rw [h]
    rfl
  · rw [process_audio_of_ok hw ht]
    have h := surviving_turn_mem_segments env w rate md turns ⟨[], [], 1⟩ t htm hd
    obtain ⟨seg, hmem, h1, h2, _, _, h5⟩ := h
    rw [hfail] at h5
    exact ⟨seg, by simpa [DiarizationResult.segments, processTurns] using hmem, h1, h2, h5⟩
  · rw [process_audio_of_ok hw ht]
    rfl

/-- Witness for C7: the embedding model always raises, and the segment is
still emitted with an empty embedding while the call succeeds. -/
theorem claim_C7_witness :
    (∃ seg ∈ (process_audio envEmbedFail "audio.wav" 2 none none 1).segments,
      seg.start_time = 0 ∧ seg.end_time = 2 ∧ seg.embedding = []) ∧
    (process_audio envEmbedFail "audio.wav" 2 none none 1).success = true := by
  have h := claim_C7_embedding_failure envEmbedFail "audio.wav" 2 none none 1
    [[1, 2, 3, 4]] [{ start := 0, stop := 2, speaker := "A" }]
    { start := 0, stop := 2, speaker := "A" } rfl rfl (by simp) (by norm_num)
    (by norm_num [extract_embedding, envEmbedFail, Except.toOption])
  exact ⟨h.2.1, h.2.2⟩

/-- C8: in the chunk path each emitted segment's speaker_label is the raw
opaque speaker token from the model (no "Speaker N" mapping), no
duration filter is applied (one segment per turn), and the pipeline is
invoked with no min/max speaker hints. -/
theorem claim_C8_chunk_path (env : Env) (audio : List ℚ) (rate : ℕ) (idx : ℕ)
    (turns : List Turn)
    (h : env.pipeline [audio] rate none none = .ok turns) :
    (process_audio_chunk env audio rate idx).success = true ∧
    (process_audio_chunk env audio rate idx).chunkIndex = some idx ∧
    (process_audio_chunk env audio rate idx).segments.length = turns.length ∧
    (process_audio_chunk env audio rate idx).segments.map ChunkSegmentOut.speaker_label
      = turns.map Turn.speaker ∧
    (process_audio_chunk env audio rate idx).segments.map ChunkSegmentOut.embedding
      = turns.map (fun t => (extract_embedding env
          (sliceSamples [audio] (trunc (t.start * (rate : ℚ)))
            (trunc (t.stop * (rate : ℚ)))) rate).getD []) := by
  rw [process_audio_chunk_of_ok h]
  refine ⟨rfl, rfl, ?_, ?_, ?_⟩
  · simp [ChunkResult.segments]
  · simp only [ChunkResult.segments, List.map_map]
    rfl
  · simp only [ChunkResult.segments, List.map_map]
    rfl

/-- Witness for C8: a pipeline that raises when given speaker hints still
succeeds (so the chunk path passed none), the raw token survives as the
label, and the 0.25 s turn is not filtered. -/
theorem claim_C8_witness :
    (process_audio_chunk envChunk [1, 2] 4 7).success = true ∧
    (process_audio_chunk envChunk [1, 2] 4 7).chunkIndex = some 7 ∧
    (process_audio_chunk envChunk [1, 2] 4 7).segments.map ChunkSegmentOut.speaker_label
      = ["SPEAKER_00"] ∧
    (process_audio_chunk envChunk [1, 2] 4 7).segments.length = 1 := by
  have h := claim_C8_chunk_path envChunk [1, 2] 4 7
    [{ start := 0, stop := 1/4, speaker := "SPEAKER_00" }] rfl
  exact ⟨h.1, h.2.1, by rw [h.2.2.2.1]; rfl, by rw [h.2.2.1]; rfl⟩

/-- C9: when the native sample rate equals the target, the resampling
step is skipped and the buffer passes through identically, and every
successful result reports the target rate in its sample_rate field. -/
theorem claim_C9_resample_idempotent :
    (∀ (env : Env) (sr rate : ℕ) (w : Waveform), sr = rate →
      resampleStep env sr rate w = .ok w) ∧
    (∀ (env : Env) (path : String) (rate : ℕ) (ms xs : Option ℕ) (md : ℚ),
      (process_audio env path rate ms xs md).success = true →
      (process_audio env path rate ms xs md).sampleRate = rate) := by
  constructor
  · intro env sr rate w h
    unfold resampleStep
    simp [h]
  · intro env path rate ms xs md h
    cases hl : loadAndNormalize env path rate with
    | error e =>
      rw [process_audio_of_norm_error hl] at h
      simp [DiarizationResult.success] at h
    | ok w =>
      cases hp : env.pipeline w rate ms xs with
      | error e =>
        rw [process_audio_of_pipeline_error hl hp] at h
        simp [DiarizationResult.success] at h
      | ok turns =>
        rw [process_audio_of_ok hl hp]
        rfl

/-- Witness for C9 at the echo environment. -/
theorem claim_C9_witness :
    resampleStep envEcho 2 2 [[1]] = .ok [[1]] ∧
    (process_audio envEcho "audio.wav" 2 none none 1).sampleRate = 2 :=
  ⟨claim_C9_resample_idempotent.1 envEcho 2 2 [[1]] rfl,
   claim_C9_resample_idempotent.2 envEcho "audio.wav" 2 none none 1 rfl⟩

/-- C10: a turn whose duration is exactly min_segment_duration is not
discarded (the filter compares with strict <): a segment is emitted. -/
theorem claim_C10_exact_duration (env : Env) (path : String) (rate : ℕ)
    (ms xs : Option ℕ) (md : ℚ) (w : Waveform) (turns : List Turn) (t : Turn)
    (hw : loadAndNormalize env path rate = .ok w)
    (ht : env.pipeline w rate ms xs = .ok turns)
    (htm : t ∈ turns) (hd : t.stop - t.start = md) :
    ∃ seg ∈ (process_audio env path rate ms xs md).segments,
      seg.start_time = t.start ∧ seg.end_time = t.stop ∧ seg.duration = md := by
  rw [process_audio_of_ok hw ht]
  have h := surviving_turn_mem_segments env w rate md turns ⟨[], [], 1⟩ t htm
    (by rw [hd]; exact lt_irrefl md)
  obtain ⟨seg, hmem, h1, h2, h3, _, _⟩ := h
  exact ⟨seg, by simpa [DiarizationResult.segments, processTurns] using hmem,
    h1, h2, by rw [h3, hd]⟩

/-- Witness for C10: a turn of exactly 1 s with the default 1 s minimum
is emitted. -/
theorem claim_C10_witness :
    ∃ seg ∈ (process_audio envBoundary "audio.wav" 2 none none 1).segments,
      seg.start_time = 0 ∧ seg.end_time = 1 ∧ seg.duration = 1 :=
  claim_C10_exact_duration envBoundary "audio.wav" 2 none none 1 [[1, 2]]
    [{ start := 0, stop := 1, speaker := "A" }]
    { start := 0, stop := 1, speaker := "A" }
    rfl rfl (by simp) (by norm_num)

end Diarization
